import Mathlib

/-!
Verification of the console-statement stripper (scripts/strip-console.py).

The embedding mirrors the Python source line by line:

* `remove_console_statements` is the core pure transform: split on
  newline, scan with a small state (guarded-block flag plus brace depth),
  rejoin with newline.  The scanner is embedded as `scanAux` running on a
  fuel argument equal to the number of remaining lines; `scanLines` fixes
  the fuel to the list length, which always suffices (`scanAux_congr`).
* `process_file` models the per-file driver: the file-system boundary is
  passed in as the outcome of the read and of the write, and the performed
  operations (read, write, print) are returned as a trace.

Python whitespace (`str.strip`, the regex class for spaces) is modelled as
the six ASCII whitespace characters.
-/

namespace StripConsole

/-- The whitespace characters stripped by Python `str.strip()`
(ASCII fragment). -/
def pySpace (c : Char) : Bool :=
  c == ' ' || c == '\t' || c == '\n' || c == '\r' || c == '\x0b' || c == '\x0c'

/-- Python `line.strip()`: drop whitespace from both ends. -/
def pyStrip (s : String) : String :=
  String.mk (((s.data.dropWhile pySpace).reverse.dropWhile pySpace).reverse)

/-- Python `line.count(c)` for a single character. -/
def countChar (c : Char) (s : String) : Nat := s.data.count c

/-- Boolean list-prefix test. -/
def isPrefList : List Char → List Char → Bool
  | [], _ => true
  | _ :: _, [] => false
  | p :: ps, c :: cs => p == c && isPrefList ps cs

/-- Boolean list-containment test: `p` occurs as a contiguous run. -/
def isSubList (p : List Char) : List Char → Bool
  | [] => p.isEmpty
  | c :: cs => isPrefList p (c :: cs) || isSubList p cs

/-- Python `pat in s` substring containment. -/
def containsStr (pat s : String) : Bool := isSubList pat.data s.data

/-- Python `s.endswith(suf)`. -/
def pyEndsWith (suf s : String) : Bool := isPrefList suf.data.reverse s.data.reverse

/-- Brace balance of a line: `line.count("\x7b") - line.count("\x7d")`. -/
def braceBal (l : String) : Int := (countChar '\x7b' l : Int) - (countChar '\x7d' l : Int)

/-- Paren balance of a line: `line.count("(") - line.count(")")`. -/
def parenBal (l : String) : Int := (countChar '(' l : Int) - (countChar ')' l : Int)

def devMarker : String := "__DEV__"

def openBraceStr : String := "\x7b"

def ifKeyword : String := "if"

/-- Source line 56: a line enters a guarded block when it contains the
marker together with an opening brace or the letters of the conditional
keyword. -/
def guardEntry (l : String) : Bool :=
  containsStr devMarker l && (containsStr openBraceStr l || containsStr ifKeyword l)

/-- Drop `p` as a prefix of `s`, or fail. -/
def dropPref : List Char → List Char → Option (List Char)
  | [], s => some s
  | _ :: _, [] => none
  | p :: ps, c :: cs => if p == c then dropPref ps cs else none

/-- Tail of the console regex after the method name: optional whitespace
then an opening parenthesis. -/
def afterMethodMatch : List Char → Bool
  | [] => false
  | c :: cs => if pySpace c then afterMethodMatch cs else c == '('

def methodNames : List String := ["log", "warn", "error", "debug", "info"]

def consoleDot : String := "console."

/-- Source line 69: the trimmed line matches the regex
`console\.(log|warn|error|debug|info)\s*\(` anchored at its start
(the leading whitespace class is vacuous on an already-stripped line). -/
def isConsoleStart (stripped : String) : Bool :=
  match dropPref consoleDot.data stripped.data with
  | none => false
  | some rest =>
    methodNames.any (fun m =>
      match dropPref m.data rest with
      | none => false
      | some r2 => afterMethodMatch r2)

def closeSemi : String := ");"

def closeParen : String := ")"

/-- Source line 71: the trimmed line ends with a close paren,
with or without the semicolon. -/
def endsCloser (stripped : String) : Bool :=
  pyEndsWith closeSemi stripped || pyEndsWith closeParen stripped

/-- Scanner state: the guarded-block flag and the brace-depth counter. -/
structure ScanState where
  inDev : Bool
  depth : Int

/-- Source lines 56-61: the depth update performed on a line while the
guarded-block branch is live.  A line that itself matches the guard-entry
pattern first resets the counter to 1; then the brace balance is added. -/
def devStep (d : Int) (l : String) : Int :=
  (if guardEntry l then 1 else d) + braceBal l

/-- Source lines 77-80: the inner loop of a multi-line console statement.
Given the running paren balance, keep consuming lines (adding each
consumed line's balance) while the balance is positive; return the
unconsumed suffix. -/
def consumeRest (d : Int) : List String → List String
  | [] => []
  | l :: ls => if 0 < d then consumeRest (d + parenBal l) ls else l :: ls

/-- Ghost counter: how many lines `consumeRest` consumes. -/
def consumedBy (d : Int) : List String → Nat
  | [] => 0
  | l :: ls => if 0 < d then consumedBy (d + parenBal l) ls + 1 else 0

/-- The scanner loop of `remove_console_statements` (source lines 51-88),
running on fuel.  Fuel at least the list length makes the fuel bound
irrelevant (`scanAux_congr`). -/
def scanAux : Nat → List String → ScanState → List String × Nat
  | 0, _, _ => ([], 0)
  | _ + 1, [], _ => ([], 0)
  | fuel + 1, l :: ls, st =>
    if guardEntry l || st.inDev then
      -- lines 56-66: (re)enter the guarded block, update the depth,
      -- leave the block when the depth is no longer positive, retain.
      let d : Int := devStep st.depth l
      let r := scanAux fuel ls (ScanState.mk (decide (0 < d)) d)
      (l :: r.1, r.2)
    else if isConsoleStart (pyStrip l) then
      if endsCloser (pyStrip l) then
        -- lines 71-74: single-line statement, drop it and count it.
        let r := scanAux fuel ls st
        (r.1, r.2 + 1)
      else
        -- lines 77-83: multi-line statement, consume to paren balance.
        let r := scanAux fuel (consumeRest (parenBal l) ls) st
        (r.1, r.2 + 1)
    else
      -- line 85: retain the line verbatim.
      let r := scanAux fuel ls st
      (l :: r.1, r.2)

/-- The scanner with its canonical fuel. -/
def scanLines (ls : List String) (st : ScanState) : List String × Nat :=
  scanAux ls.length ls st

/-- Ghost mirror of `scanAux` returning the final scanner state. -/
def scanFinalAux : Nat → List String → ScanState → ScanState
  | 0, _, st => st
  | _ + 1, [], st => st
  | fuel + 1, l :: ls, st =>
    if guardEntry l || st.inDev then
      let d : Int := devStep st.depth l
      scanFinalAux fuel ls (ScanState.mk (decide (0 < d)) d)
    else if isConsoleStart (pyStrip l) then
      if endsCloser (pyStrip l) then scanFinalAux fuel ls st
      else scanFinalAux fuel (consumeRest (parenBal l) ls) st
    else scanFinalAux fuel ls st

/-- Final scanner state with the canonical fuel. -/
def scanFinal (ls : List String) (st : ScanState) : ScanState :=
  scanFinalAux ls.length ls st

/-- Ghost mirror of `scanAux` counting the lines consumed by removed
statements (a single-line statement consumes one line; a multi-line one
consumes its start line plus what the paren loop eats). -/
def consumedAux : Nat → List String → ScanState → Nat
  | 0, _, _ => 0
  | _ + 1, [], _ => 0
  | fuel + 1, l :: ls, st =>
    if guardEntry l || st.inDev then
      consumedAux fuel ls (ScanState.mk (decide (0 < devStep st.depth l)) (devStep st.depth l))
    else if isConsoleStart (pyStrip l) then
      if endsCloser (pyStrip l) then consumedAux fuel ls st + 1
      else consumedAux fuel (consumeRest (parenBal l) ls) st + (consumedBy (parenBal l) ls + 1)
    else consumedAux fuel ls st

/-- Lines consumed by removed statements, canonical fuel. -/
def consumedLines (ls : List String) (st : ScanState) : Nat :=
  consumedAux ls.length ls st

/-- Python `content.split(c)` for a one-character separator. -/
def splitChar (c : Char) : List Char → List (List Char)
  | [] => [[]]
  | x :: xs =>
    let r := splitChar c xs
    if x == c then [] :: r
    else
      match r with
      | [] => [[x]]
      | y :: ys => (x :: y) :: ys

/-- Python `sep.join(pieces)` for a one-character separator. -/
def joinChar (c : Char) : List (List Char) → List Char
  | [] => []
  | [p] => p
  | p :: ps => p ++ c :: joinChar c ps

/-- Source line 44: `content.split("\n")`. -/
def splitNl (s : String) : List String := (splitChar '\n' s.data).map String.mk

/-- Source line 88: `"\n".join(new_lines)`. -/
def joinNl (ls : List String) : String := String.mk (joinChar '\n' (ls.map String.data))

/-- The fresh scanner state of source lines 47-49. -/
def initState : ScanState := ScanState.mk false 0

/-- Source lines 42-88: the whole pure transform. -/
def remove_console_statements (content : String) : String × Nat :=
  let r := scanLines (splitNl content) initState
  (joinNl r.1, r.2)

/-! ### Basic facts about the consumption loop -/

theorem consumeRest_length (d : Int) (ls : List String) :
    (consumeRest d ls).length ≤ ls.length := by
  induction ls generalizing d with
  | nil => simp [consumeRest]
  | cons l ls ih =>
    simp only [consumeRest, List.length_cons]
    split
    · exact Nat.le_succ_of_le (ih _)
    · exact Nat.le_refl _

theorem consumeRest_sublist (d : Int) (ls : List String) :
    (consumeRest d ls).Sublist ls := by
  induction ls generalizing d with
  | nil => simp [consumeRest]
  | cons l ls ih =>
    simp only [consumeRest]
    split
    · exact List.Sublist.cons l (ih _)
    · exact List.Sublist.refl _

theorem consumedBy_spec (d : Int) (ls : List String) :
    (consumeRest d ls).length + consumedBy d ls = ls.length := by
  induction ls generalizing d with
  | nil => simp [consumeRest, consumedBy]
  | cons l ls ih =>
    simp only [consumeRest, consumedBy, List.length_cons]
    split
    · have := ih (d + parenBal l)
      omega
    · simp

/-! ### Fuel irrelevance and the one-step unfolding of the scanner -/

theorem scanAux_congr : ∀ (f1 f2 : Nat) (ls : List String) (st : ScanState),
    ls.length ≤ f1 → ls.length ≤ f2 → scanAux f1 ls st = scanAux f2 ls st := by
  intro f1
  induction f1 with
  | zero =>
    intro f2 ls st h1 _
    have hls : ls = [] := List.length_eq_zero.mp (Nat.le_zero.mp h1)
    subst hls
    cases f2 <;> rfl
  | succ f ih =>
    intro f2 ls st h1 h2
    cases ls with
    | nil => cases f2 <;> rfl
    | cons l ls =>
      cases f2 with
      | zero => simp at h2
      | succ f2 =>
        have hl : ls.length ≤ f := by simpa using h1
        have hl2 : ls.length ≤ f2 := by simpa using h2
        simp only [scanAux]
        split_ifs with hg hc he
        · rw [ih f2 ls _ hl hl2]
        · rw [ih f2 ls st hl hl2]
        · rw [ih f2 (consumeRest (parenBal l) ls) st
            (Nat.le_trans (consumeRest_length _ _) hl)
            (Nat.le_trans (consumeRest_length _ _) hl2)]
        · rw [ih f2 ls st hl hl2]

theorem scanLines_cons (l : String) (ls : List String) (st : ScanState) :
    scanLines (l :: ls) st =
      if guardEntry l || st.inDev then
        ((l :: (scanLines ls (ScanState.mk (decide (0 < devStep st.depth l)) (devStep st.depth l))).1),
         (scanLines ls (ScanState.mk (decide (0 < devStep st.depth l)) (devStep st.depth l))).2)
      else if isConsoleStart (pyStrip l) then
        if endsCloser (pyStrip l) then
          ((scanLines ls st).1, (scanLines ls st).2 + 1)
        else
          ((scanLines (consumeRest (parenBal l) ls) st).1,
           (scanLines (consumeRest (parenBal l) ls) st).2 + 1)
      else
        ((l :: (scanLines ls st).1), (scanLines ls st).2) := by
  simp only [scanLines, List.length_cons, scanAux]
  split_ifs with hg hc he
  · rfl
  · rfl
  · rw [scanAux_congr ls.length (consumeRest (parenBal l) ls).length
      (consumeRest (parenBal l) ls) st (consumeRest_length _ _) (Nat.le_refl _)]
  · rfl

/-! ### Structural invariants of the scanner -/

theorem scan_sublist : ∀ (fuel : Nat) (ls : List String) (st : ScanState),
    (scanAux fuel ls st).1.Sublist ls := by
  intro fuel
  induction fuel with
  | zero => intro ls st; simp [scanAux]
  | succ f ih =>
    intro ls st
    cases ls with
    | nil => simp [scanAux]
    | cons l ls =>
      simp only [scanAux]
      split_ifs with hg hc he
      · exact List.Sublist.cons₂ l (ih ls _)
      · exact List.Sublist.cons l (ih ls st)
      · exact List.Sublist.cons l ((ih _ st).trans (consumeRest_sublist _ _))
      · exact List.Sublist.cons₂ l (ih ls st)

theorem scan_count_le : ∀ (fuel : Nat) (ls : List String) (st : ScanState),
    (scanAux fuel ls st).2 ≤ ls.length := by
  intro fuel
  induction fuel with
  | zero => intro ls st; simp [scanAux]
  | succ f ih =>
    intro ls st
    cases ls with
    | nil => simp [scanAux]
    | cons l ls =>
      simp only [scanAux, List.length_cons]
      split_ifs with hg hc he
      · exact Nat.le_succ_of_le (ih ls _)
      · exact Nat.succ_le_succ (ih ls st)
      · exact Nat.succ_le_succ (Nat.le_trans (ih _ st) (consumeRest_length _ _))
      · exact Nat.le_succ_of_le (ih ls st)

theorem scan_length_consumed : ∀ (fuel : Nat) (ls : List String) (st : ScanState),
    ls.length ≤ fuel →
    (scanAux fuel ls st).1.length + consumedAux fuel ls st = ls.length := by
  intro fuel
  induction fuel with
  | zero =>
    intro ls st h
    have hls : ls = [] := List.length_eq_zero.mp (Nat.le_zero.mp h)
    subst hls
    simp [scanAux, consumedAux]
  | succ f ih =>
    intro ls st h
    cases ls with
    | nil => simp [scanAux, consumedAux]
    | cons l ls =>
      have hl : ls.length ≤ f := by simpa using h
      simp only [scanAux, consumedAux, List.length_cons]
      split_ifs with hg hc he
      · have := ih ls (ScanState.mk (decide (0 < devStep st.depth l)) (devStep st.depth l)) hl
        dsimp only
        simp only [List.length_cons]
        omega
      · have := ih ls st hl
        dsimp only
        omega
      · have h1 := ih (consumeRest (parenBal l) ls) st
          (Nat.le_trans (consumeRest_length _ _) hl)
        have h2 := consumedBy_spec (parenBal l) ls
        dsimp only
        omega
      · have := ih ls st hl
        dsimp only
        simp only [List.length_cons]
        omega

theorem scan_stable : ∀ (fuel : Nat) (ls : List String) (st : ScanState),
    ls.length ≤ fuel →
    scanLines (scanAux fuel ls st).1 st = ((scanAux fuel ls st).1, 0) := by
  intro fuel
  induction fuel with
  | zero => intro ls st _; simp [scanAux, scanLines, scanAux]
  | succ f ih =>
    intro ls st h
    cases ls with
    | nil => simp [scanAux, scanLines, scanAux]
    | cons l ls =>
      have hl : ls.length ≤ f := by simpa using h
      simp only [scanAux]
      split_ifs with hg hc he
      · rw [scanLines_cons, if_pos hg, ih ls _ hl]
      · exact ih ls st hl
      · exact ih (consumeRest (parenBal l) ls) st (Nat.le_trans (consumeRest_length _ _) hl)
      · rw [scanLines_cons, if_neg hg, if_neg hc, ih ls st hl]

/-! ### Splitting and joining on the newline character -/

theorem splitChar_ne_nil (c : Char) (cs : List Char) : splitChar c cs ≠ [] := by
  cases cs with
  | nil => simp [splitChar]
  | cons x xs =>
    by_cases hx : (x == c) = true
    · simp [splitChar, hx]
    · rcases hr : splitChar c xs with _ | ⟨y, ys⟩
      · simp [splitChar, hx, hr]
      · simp [splitChar, hx, hr]

theorem not_mem_of_mem_splitChar (c : Char) (cs : List Char) (p : List Char)
    (hp : p ∈ splitChar c cs) : c ∉ p := by
  induction cs generalizing p with
  | nil =>
    simp only [splitChar, List.mem_singleton] at hp
    subst hp
    simp
  | cons x xs ih =>
    by_cases hx : (x == c) = true
    · rw [show splitChar c (x :: xs) = [] :: splitChar c xs by simp [splitChar, hx]] at hp
      rcases List.mem_cons.mp hp with h | h
      · subst h; simp
      · exact ih p h
    · rcases hr : splitChar c xs with _ | ⟨y, ys⟩
      · exact absurd hr (splitChar_ne_nil c xs)
      · rw [show splitChar c (x :: xs) = (x :: y) :: ys by simp [splitChar, hx, hr]] at hp
        rcases List.mem_cons.mp hp with h | h
        · subst h
          intro hmem
          rcases List.mem_cons.mp hmem with h1 | h1
          · subst h1
            simp at hx
          · exact ih y (by rw [hr]; exact List.mem_cons_self y ys) h1
        · exact ih p (by rw [hr]; exact List.mem_cons_of_mem y h)

theorem splitChar_of_not_mem (c : Char) (p : List Char) (hc : c ∉ p) :
    splitChar c p = [p] := by
  induction p with
  | nil => rfl
  | cons x p ih =>
    have hne : ¬ c = x ∧ c ∉ p := by simpa [List.mem_cons] using hc
    have hx : (x == c) = false := beq_eq_false_iff_ne.mpr fun h => hne.1 h.symm
    simp [splitChar, hx, ih hne.2]

theorem splitChar_append (c : Char) (p rest : List Char) (hc : c ∉ p) :
    splitChar c (p ++ c :: rest) = p :: splitChar c rest := by
  induction p with
  | nil => simp [splitChar]
  | cons x p ih =>
    have hne : ¬ c = x ∧ c ∉ p := by simpa [List.mem_cons] using hc
    have hx : (x == c) = false := beq_eq_false_iff_ne.mpr fun h => hne.1 h.symm
    simp [splitChar, hx, ih hne.2]

theorem splitChar_joinChar (c : Char) : ∀ (ps : List (List Char)), ps ≠ [] →
    (∀ p ∈ ps, c ∉ p) → splitChar c (joinChar c ps) = ps := by
  intro ps
  induction ps with
  | nil => intro h; exact absurd rfl h
  | cons p ps ih =>
    intro _ hmem
    cases ps with
    | nil =>
      simp only [joinChar]
      exact splitChar_of_not_mem c p (hmem p (List.mem_singleton_self p))
    | cons q qs =>
      have hjoin : joinChar c (p :: q :: qs) = p ++ c :: joinChar c (q :: qs) := rfl
      rw [hjoin, splitChar_append c p _ (hmem p (List.mem_cons_self p _)),
        ih (by simp) (fun r hr => hmem r (List.mem_cons_of_mem p hr))]

theorem string_mk_data (s : String) : String.mk s.data = s := rfl

theorem lines_no_nl (s : String) (l : String) (hl : l ∈ splitNl s) : '\n' ∉ l.data := by
  simp only [splitNl, List.mem_map] at hl
  obtain ⟨p, hp, he⟩ := hl
  rw [← he]
  exact not_mem_of_mem_splitChar _ _ _ hp

theorem splitNl_joinNl (ls : List String) (h0 : ls ≠ [])
    (hnl : ∀ l ∈ ls, '\n' ∉ l.data) : splitNl (joinNl ls) = ls := by
  unfold splitNl joinNl
  rw [show (String.mk (joinChar '\n' (ls.map String.data))).data
      = joinChar '\n' (ls.map String.data) from rfl]
  rw [splitChar_joinChar '\n' (ls.map String.data) (by simpa using h0)
    (by intro p hp
        obtain ⟨l, hl, he⟩ := List.mem_map.mp hp
        rw [← he]
        exact hnl l hl)]
  rw [List.map_map]
  rw [show (String.mk ∘ String.data) = id from funext fun s => rfl, List.map_id]

/-! ### Runs of lines processed inside a guarded block -/

/-- Total brace balance of a list of lines. -/
def sumBal (ls : List String) : Int := (ls.map braceBal).sum

/-- The guard-depth sequence the scanner computes while the guarded-block
branch stays live, starting from depth `d`. -/
def devDepths (d : Int) : List String → List Int
  | [] => []
  | l :: ls => devStep d l :: devDepths (devStep d l) ls

theorem devRun : ∀ (mid : List String) (d : Int) (rest : List String),
    (∀ l ∈ mid, guardEntry l = false) →
    (∀ k, k < mid.length + 1 → 0 < d + sumBal (mid.take k)) →
    scanLines (mid ++ rest) (ScanState.mk true d) =
      ((mid ++ (scanLines rest (ScanState.mk true (d + sumBal mid))).1),
       (scanLines rest (ScanState.mk true (d + sumBal mid))).2) := by
  intro mid
  induction mid with
  | nil =>
    intro d rest _ _
    show scanLines rest (ScanState.mk true d) =
      ((scanLines rest (ScanState.mk true (d + sumBal []))).1,
       (scanLines rest (ScanState.mk true (d + sumBal []))).2)
    rw [show d + sumBal [] = d by simp [sumBal]]
  | cons l mid ih =>
    intro d rest hg hpos
    have hgl : guardEntry l = false := hg l (List.mem_cons_self l mid)
    have hstep : devStep (ScanState.mk true d).depth l = d + braceBal l := by
      simp [devStep, hgl]
    have hd1 : 0 < d + braceBal l := by
      have := hpos 1 (by simp)
      simpa [sumBal] using this
    rw [List.cons_append, scanLines_cons, if_pos (by simp), hstep, decide_eq_true hd1]
    rw [ih (d + braceBal l) rest (fun x hx => hg x (List.mem_cons_of_mem l hx))
      (by intro k hk
          have := hpos (k + 1) (by simpa using hk)
          simpa [sumBal, add_assoc] using this)]
    have hsum : d + braceBal l + sumBal mid = d + sumBal (l :: mid) := by
      simp [sumBal, add_assoc]
    rw [hsum]
    simp

theorem devTrap : ∀ (ls : List String) (d : Int),
    (∀ x ∈ devDepths d ls, 0 < x) →
    scanLines ls (ScanState.mk true d) = (ls, 0) ∧
    (scanFinal ls (ScanState.mk true d)).inDev = true := by
  intro ls
  induction ls with
  | nil => intro d _; exact ⟨rfl, rfl⟩
  | cons l ls ih =>
    intro d hpos
    have h1 : 0 < devStep d l := hpos _ (by simp [devDepths])
    have h2 : ∀ x ∈ devDepths (devStep d l) ls, 0 < x :=
      fun x hx => hpos x (by simp [devDepths, hx])
    obtain ⟨ihA, ihB⟩ := ih (devStep d l) h2
    constructor
    · rw [scanLines_cons, if_pos (by simp)]
      have hstep : devStep (ScanState.mk true d).depth l = devStep d l := rfl
      rw [hstep, decide_eq_true h1, ihA]
    · show (scanFinalAux (ls.length + 1) (l :: ls) (ScanState.mk true d)).inDev = true
      rw [show scanFinalAux (ls.length + 1) (l :: ls) (ScanState.mk true d)
          = scanFinalAux ls.length ls
            (ScanState.mk (decide (0 < devStep d l)) (devStep d l)) by
        simp [scanFinalAux]]
      rw [decide_eq_true h1]
      exact ihB

/-! ### Substring containment facts for the reporting line -/

theorem isPrefList_self_append (p y : List Char) : isPrefList p (p ++ y) = true := by
  induction p with
  | nil => rfl
  | cons a p ih => simp [isPrefList, ih]

theorem isSubList_self_append (p y : List Char) : isSubList p (p ++ y) = true := by
  cases p with
  | nil =>
    cases y with
    | nil => rfl
    | cons c cs => simp [isSubList, isPrefList]
  | cons a p =>
    show (isPrefList (a :: p) ((a :: p) ++ y) || isSubList (a :: p) (p ++ y)) = true
    rw [isPrefList_self_append]
    simp

theorem isSubList_append_left (p x y : List Char) : isSubList p (x ++ p ++ y) = true := by
  induction x with
  | nil => simpa using isSubList_self_append p y
  | cons a x ih =>
    show (isPrefList p (a :: (x ++ p ++ y)) || isSubList p (x ++ p ++ y)) = true
    rw [ih]
    simp

theorem isSubList_suffix (p x : List Char) : isSubList p (x ++ p) = true := by
  have h := isSubList_append_left p x []
  simpa using h

/-! ### The per-file driver, with the file-system boundary made explicit -/

/-- An observable file-system effect of `process_file`. -/
inductive FileOp where
  | readOp : String → FileOp
  | writeOp : String → String → FileOp
  | printOp : String → FileOp

/-- Source lines 16-25. -/
def SKIP_PATTERNS : List String :=
  ["node_modules", ".test.ts", ".test.tsx", "/tests/", "/testing/", "/__tests__/",
   ".spec.ts", ".spec.tsx"]

/-- Source lines 91-96. -/
def should_skip (filepath : String) : Bool :=
  SKIP_PATTERNS.any (fun p => containsStr p filepath)

def errPre : String := "  Error processing "

def errSep : String := ": "

/-- The error line of source line 114. -/
def errMsg (path e : String) : String :=
  String.mk (errPre.data ++ path.data ++ errSep.data ++ e.data)

def okPre : String := "  "

def okMid : String := ": removed "

def okSuf : String := " console statement(s)"

/-- The success line of source line 110. -/
def okMsg (path : String) (n : Nat) : String :=
  String.mk (okPre.data ++ path.data ++ okMid.data ++ (Nat.repr n).data ++ okSuf.data)

/-- Source lines 99-115 (`process_file`), with the file system held at the
boundary: `readRes` is the outcome of `filepath.read_text` and `writeRes`
the outcome of `filepath.write_text` on the content handed to it.  The
value is the returned removal count together with the trace of completed
operations; a raised read or write lands in the corresponding
`Except.error` case, where the handler of lines 113-115 prints the error
line and returns 0. -/
def process_file (path : String) (readRes : Except String String)
    (writeRes : String → Except String Unit) : Nat × List FileOp :=
  if should_skip path then (0, [])
  else
    match readRes with
    | Except.error e => (0, [FileOp.printOp (errMsg path e)])
    | Except.ok content =>
      let r := remove_console_statements content
      if 0 < r.2 then
        match writeRes r.1 with
        | Except.ok _ =>
          (r.2, [FileOp.readOp path, FileOp.writeOp path r.1, FileOp.printOp (okMsg path r.2)])
        | Except.error e => (0, [FileOp.readOp path, FileOp.printOp (errMsg path e)])
      else (r.2, [FileOp.readOp path])

/-- Effect of one operation on a modelled disk (a map from path to
content): only writes change it. -/
def applyOp (fs : String → Option String) : FileOp → (String → Option String)
  | FileOp.writeOp p c => Function.update fs p (some c)
  | _ => fs

/-- Effect of a trace of operations on a modelled disk. -/
def runOps (fs : String → Option String) : List FileOp → (String → Option String)
  | [] => fs
  | op :: ops => runOps (applyOp fs op) ops

/-- A write that always succeeds. -/
def okWrite : String → Except String Unit := fun _ => Except.ok ()

/-- A write that always fails with the given message. -/
def errWrite (e : String) : String → Except String Unit := fun _ => Except.error e

/-- An empty modelled disk. -/
def emptyFs : String → Option String := fun _ => none

/-! ### The claims -/

/-- C1: target-statement removal contract.  A line the scanner processes
outside guarded-block mode (so, per the guard-entry precedence of the
source and of the state machine of the spec, a line that does not itself
enter the guard) whose trimmed content matches the console-call pattern is
removed: if the trimmed line ends with a close paren, with or without the
semicolon, exactly that one line is dropped, the count rises by one and
scanning advances one line; otherwise the line is dropped together with
the run the paren-balance loop consumes (`consumeRest`, which adds each
consumed line's balance and stops when the total is no longer positive or
the input is exhausted), the count rises by one for the whole run, and
scanning resumes past the last consumed line. -/
theorem C1_target_removal (l : String) (ls : List String) (st : ScanState)
    (hdev : st.inDev = false) (hguard : guardEntry l = false)
    (hcons : isConsoleStart (pyStrip l) = true) :
    (endsCloser (pyStrip l) = true →
      scanLines (l :: ls) st = ((scanLines ls st).1, (scanLines ls st).2 + 1)) ∧
    (endsCloser (pyStrip l) = false →
      scanLines (l :: ls) st =
        ((scanLines (consumeRest (parenBal l) ls) st).1,
         (scanLines (consumeRest (parenBal l) ls) st).2 + 1)) := by
  constructor
  · intro hend
    rw [scanLines_cons, if_neg (by simp [hguard, hdev]), if_pos hcons, if_pos hend]
  · intro hend
    rw [scanLines_cons, if_neg (by simp [hguard, hdev]), if_pos hcons,
      if_neg (by simp [hend])]

/-- Witness for C1: a single-line statement and a multi-line statement. -/
theorem C1_target_removal_witness :
    scanLines ["console.log(1);", "const a = 1;"] initState = (["const a = 1;"], 1) ∧
    scanLines ["console.error(", "  bad,", ");", "next();"] initState = (["next();"], 1) := by
  constructor
  · have h := (C1_target_removal ("console.log(1);") ["const a = 1;"] initState rfl
      (by decide) (by decide)).1 (by decide)
    rw [h]
    decide
  · have h := (C1_target_removal ("console.error(") ["  bad,", ");", "next();"] initState rfl
      (by decide) (by decide)).2 (by decide)
    rw [h]
    decide

/-- The guard-depth update as claim C2 words it: the counter always
changes by exactly the brace balance of the line, with no other update. -/
def devStepClaimed (d : Int) (l : String) : Int := d + braceBal l

/-- C2 counterexample.  In guarded mode a line that itself matches the
guard-entry pattern resets the counter to 1 before the brace balance is
added, so the depth does not change by the brace balance alone: at depth 2
the nested entry line keeps the depth at 2 where the claim predicts 3, the
block therefore closes two lines early, and the console line after it is
removed although under the claimed transition the scanner would still be
guarded (output would be all five lines with count 0). -/
theorem C2_depth_transition_cex :
    scanLines ["if (__DEV__) \x7b", "  if (__DEV__) \x7b", "\x7d", "\x7d", "console.log(1);"]
        initState
      = (["if (__DEV__) \x7b", "  if (__DEV__) \x7b", "\x7d", "\x7d"], 1) ∧
    devStep 2 ("  if (__DEV__) \x7b") ≠ devStepClaimed 2 ("  if (__DEV__) \x7b") := by
  constructor
  · decide
  · decide

/-- C2 (amended): while the scanner is in guarded-block mode every line is
retained and the depth counter is updated by `devStep` - the brace balance
added to the previous counter, except that a line itself matching the
guard-entry pattern first resets the counter to 1 - and guarded-block mode
continues exactly while the updated counter is positive. -/
theorem C2_depth_transition (l : String) (ls : List String) (st : ScanState)
    (hdev : st.inDev = true) :
    scanLines (l :: ls) st =
      ((l :: (scanLines ls (ScanState.mk (decide (0 < devStep st.depth l))
          (devStep st.depth l))).1),
       (scanLines ls (ScanState.mk (decide (0 < devStep st.depth l))
          (devStep st.depth l))).2) ∧
    (guardEntry l = false → devStep st.depth l = st.depth + braceBal l) := by
  constructor
  · rw [scanLines_cons, if_pos (by simp [hdev])]
  · intro hg
    simp [devStep, hg]

/-- Witness for C2 (amended) at a closing-brace line from depth 1. -/
theorem C2_depth_transition_witness :
    scanLines ["\x7d"] (ScanState.mk true 1) = (["\x7d"], 0) ∧
    (guardEntry ("\x7d") = false → devStep 1 ("\x7d") = 1 + braceBal ("\x7d")) := by
  have h := C2_depth_transition ("\x7d") [] (ScanState.mk true 1) rfl
  constructor
  · rw [h.1]
    decide
  · exact h.2

/-- C3 counterexample.  The target line sits strictly between a guard-entry
line and its matching brace-balanced exit line, yet nothing of the block is
retained: the unclosed `console.log(` above it makes the paren-consumption
loop swallow the whole block, so the output is empty and the count is 1. -/
theorem C3_guard_preservation_cex :
    scanLines ["console.log(", "if (__DEV__) \x7b", "console.log(2);", "\x7d"] initState
      = ([], 1) := by
  decide

/-- The scanner state right after the exit line of a guarded block whose
entry added `braceBal entry` on top of the reset depth 1. -/
def afterExitState (entry : String) (mid : List String) (exitL : String) : ScanState :=
  ScanState.mk (decide (0 < devStep (1 + braceBal entry + sumBal mid) exitL))
    (devStep (1 + braceBal entry + sumBal mid) exitL)

/-- C3 (amended): guard preservation holds provided the guard-entry line is
itself reached by the scanner in normal mode (not swallowed by the
paren-consumption of an earlier multi-line target statement, as in the
counterexample) and no interior line of the block itself matches the
guard-entry pattern: then the entry line, every interior line (in
particular any target-call line) and the exit line are retained verbatim,
and the count of the whole input is exactly the count contributed by the
lines after the block - the block contributes nothing. -/
theorem C3_guard_preservation (entry : String) (mid : List String) (exitL : String)
    (post : List String) (st : ScanState)
    (_hdev : st.inDev = false)
    (hentry : guardEntry entry = true)
    (hmid : ∀ l ∈ mid, guardEntry l = false)
    (hpos : ∀ k, k < mid.length + 1 → 0 < 1 + braceBal entry + sumBal (mid.take k)) :
    scanLines (entry :: (mid ++ exitL :: post)) st =
      ((entry :: (mid ++ exitL :: (scanLines post (afterExitState entry mid exitL)).1)),
       (scanLines post (afterExitState entry mid exitL)).2) := by
  have h0 : 0 < 1 + braceBal entry := by simpa [sumBal] using hpos 0 (by simp)
  rw [scanLines_cons, if_pos (by simp [hentry])]
  rw [show devStep st.depth entry = 1 + braceBal entry by simp [devStep, hentry]]
  rw [decide_eq_true h0]
  rw [devRun mid (1 + braceBal entry) (exitL :: post) hmid hpos]
  rw [scanLines_cons, if_pos (by simp)]
  rfl

/-- Witness for C3 (amended), at the four-line scenario of the spec. -/
theorem C3_guard_preservation_witness :
    scanLines ["if (__DEV__) \x7b", "  console.log(\x27debug\x27);", "\x7d", "const z = 3;"]
        initState
      = (["if (__DEV__) \x7b", "  console.log(\x27debug\x27);", "\x7d", "const z = 3;"], 0) := by
  have h := C3_guard_preservation ("if (__DEV__) \x7b") ["  console.log(\x27debug\x27);"]
    ("\x7d") ["const z = 3;"] initState rfl (by decide) (by decide) (by decide)
  show scanLines ("if (__DEV__) \x7b" ::
      (["  console.log(\x27debug\x27);"] ++ "\x7d" :: ["const z = 3;"])) initState = _
  rw [h]
  decide

/-- C4: idempotence - running the transform on its own output changes
nothing and reports zero removals. -/
theorem C4_idempotent (content : String) :
    remove_console_statements ((remove_console_statements content).1) =
      ((remove_console_statements content).1, 0) := by
  by_cases h : (scanLines (splitNl content) initState).1 = []
  · show remove_console_statements (joinNl (scanLines (splitNl content) initState).1) =
      (joinNl (scanLines (splitNl content) initState).1, 0)
    rw [h]
    decide
  · have hnl : ∀ l ∈ (scanLines (splitNl content) initState).1, '\n' ∉ l.data := by
      intro l hl
      exact lines_no_nl content l
        ((scan_sublist (splitNl content).length (splitNl content) initState).subset hl)
    have hsplit := splitNl_joinNl _ h hnl
    show (joinNl (scanLines (splitNl (joinNl (scanLines (splitNl content) initState).1))
            initState).1,
          (scanLines (splitNl (joinNl (scanLines (splitNl content) initState).1))
            initState).2)
        = (joinNl (scanLines (splitNl content) initState).1, 0)
    rw [hsplit]
    rw [show scanLines (scanLines (splitNl content) initState).1 initState
        = ((scanLines (splitNl content) initState).1, 0) from
      scan_stable (splitNl content).length (splitNl content) initState (Nat.le_refl _)]

/-- C5: retention invariant - the output lines are a subsequence of the
input lines (each retained verbatim, in order), and the output length plus
the number of lines consumed by removed statements equals the input
length. -/
theorem C5_retention_invariant (content : String) :
    ((scanLines (splitNl content) initState).1).Sublist (splitNl content) ∧
    (scanLines (splitNl content) initState).1.length
        + consumedLines (splitNl content) initState
      = (splitNl content).length :=
  ⟨scan_sublist _ _ _, scan_length_consumed _ _ _ (Nat.le_refl _)⟩

/-- C6: a guard block whose depth sequence (reset to 1 at entry, then the
entry line's own braces added, then per-line brace balances) stays positive
- as it does for an ordinarily balanced block, whose matching close brace
only brings the counter back to 1 - traps the scanner in guarded mode to
the end of input: every line from the entry on, including later
target-call lines, is retained, the count from the entry on is 0, and the
final scanner state is still guarded. -/
theorem C6_guard_block_traps (entry : String) (rest : List String) (st : ScanState)
    (_hdev : st.inDev = false)
    (hentry : guardEntry entry = true)
    (hpos : ∀ x ∈ devDepths 1 (entry :: rest), 0 < x) :
    scanLines (entry :: rest) st = (entry :: rest, 0) ∧
    (scanFinal (entry :: rest) st).inDev = true := by
  have h1 : 0 < devStep 1 entry := hpos _ (by simp [devDepths])
  have h2 : ∀ x ∈ devDepths (devStep 1 entry) rest, 0 < x :=
    fun x hx => hpos x (by simp [devDepths, hx])
  obtain ⟨hA, hB⟩ := devTrap rest (devStep 1 entry) h2
  constructor
  · rw [scanLines_cons, if_pos (by simp [hentry])]
    rw [show devStep st.depth entry = devStep 1 entry by simp [devStep, hentry]]
    rw [decide_eq_true h1, hA]
  · show (scanFinalAux (rest.length + 1) (entry :: rest) st).inDev = true
    rw [show scanFinalAux (rest.length + 1) (entry :: rest) st
        = scanFinalAux rest.length rest
          (ScanState.mk (decide (0 < devStep st.depth entry)) (devStep st.depth entry)) by
      simp [scanFinalAux, hentry]]
    rw [show devStep st.depth entry = devStep 1 entry by simp [devStep, hentry]]
    rw [decide_eq_true h1]
    exact hB

/-- Witness for C6: after a balanced block the scanner is still guarded, so
the trailing console line survives. -/
theorem C6_guard_block_traps_witness :
    scanLines ("if (__DEV__) \x7b" ::
        ["  console.log(\x27debug\x27);", "\x7d", "console.log(3);"]) initState
      = ("if (__DEV__) \x7b" ::
        ["  console.log(\x27debug\x27);", "\x7d", "console.log(3);"], 0) ∧
    (scanFinal ("if (__DEV__) \x7b" ::
        ["  console.log(\x27debug\x27);", "\x7d", "console.log(3);"]) initState).inDev
      = true :=
  C6_guard_block_traps ("if (__DEV__) \x7b")
    ["  console.log(\x27debug\x27);", "\x7d", "console.log(3);"] initState rfl
    (by decide) (by decide)

/-- C7: skip-list totality - a path containing any configured skip pattern
makes `process_file` return 0 with an empty operation trace, so no read and
no write happen and any modelled disk is left unchanged. -/
theorem C7_skip_totality (path : String) (readRes : Except String String)
    (writeRes : String → Except String Unit)
    (hskip : ∃ p ∈ SKIP_PATTERNS, containsStr p path = true) :
    process_file path readRes writeRes = (0, []) ∧
    (∀ fs : String → Option String, runOps fs (process_file path readRes writeRes).2 = fs) := by
  have hs : should_skip path = true := by
    obtain ⟨p, hp, hc⟩ := hskip
    exact List.any_eq_true.mpr ⟨p, hp, hc⟩
  constructor
  · simp [process_file, hs]
  · intro fs
    rw [show (process_file path readRes writeRes).2 = [] from by simp [process_file, hs]]
    rfl

/-- Witness for C7 at a path inside a tests directory. -/
theorem C7_skip_totality_witness :
    process_file ("app/tests/helper.ts") (Except.ok ("console.log(5);")) okWrite = (0, []) ∧
    runOps emptyFs
        (process_file ("app/tests/helper.ts") (Except.ok ("console.log(5);")) okWrite).2
      = emptyFs := by
  have h := C7_skip_totality ("app/tests/helper.ts") (Except.ok ("console.log(5);")) okWrite
    ⟨"/tests/", by decide, by decide⟩
  exact ⟨h.1, h.2 emptyFs⟩

/-- C8: per-file error recovery - a failing read makes `process_file`
return 0 with only an error line that names both the file and the cause;
a failing write on a file with removals likewise returns 0 with the error
line after the completed read.  In either case the error is absorbed, not
propagated. -/
theorem C8_error_recovery (path e content : String)
    (writeRes : String → Except String Unit)
    (hns : should_skip path = false) :
    (process_file path (Except.error e) writeRes = (0, [FileOp.printOp (errMsg path e)]) ∧
     containsStr path (errMsg path e) = true ∧
     containsStr e (errMsg path e) = true) ∧
    (0 < (remove_console_statements content).2 →
      writeRes (remove_console_statements content).1 = Except.error e →
      process_file path (Except.ok content) writeRes
        = (0, [FileOp.readOp path, FileOp.printOp (errMsg path e)])) := by
  refine ⟨⟨?_, ?_, ?_⟩, ?_⟩
  · simp [process_file, hns]
  · show isSubList path.data (errPre.data ++ path.data ++ errSep.data ++ e.data) = true
    rw [List.append_assoc (errPre.data ++ path.data) errSep.data e.data]
    exact isSubList_append_left path.data errPre.data (errSep.data ++ e.data)
  · show isSubList e.data (errPre.data ++ path.data ++ errSep.data ++ e.data) = true
    exact isSubList_suffix e.data (errPre.data ++ path.data ++ errSep.data)
  · intro hrem hw
    simp [process_file, hns, hrem, hw]

/-- Witness for C8: a failing read and a failing write on a real file. -/
theorem C8_error_recovery_witness :
    process_file ("src/App.tsx") (Except.error ("boom")) (errWrite ("boom"))
        = (0, [FileOp.printOp (errMsg ("src/App.tsx") ("boom"))]) ∧
    process_file ("src/App.tsx") (Except.ok ("console.log(9);")) (errWrite ("boom"))
        = (0, [FileOp.readOp ("src/App.tsx"),
               FileOp.printOp (errMsg ("src/App.tsx") ("boom"))]) := by
  have h := C8_error_recovery ("src/App.tsx") ("boom") ("console.log(9);")
    (errWrite ("boom")) (by decide)
  exact ⟨h.1.1, h.2 (by decide) rfl⟩

/-- C9: totality of the core transform - it is a total function (the
embedding is a terminating structural recursion whose fuel, the line
count, never runs out), and the removal count it returns is bounded by the
number of input lines. -/
theorem C9_total_bounded (content : String) :
    (remove_console_statements content).2 ≤ (splitNl content).length :=
  scan_count_le (splitNl content).length (splitNl content) initState

/-- C10: guard-entry detection precedes target-call detection - a line in
normal mode matching both patterns is retained, the scanner performs the
guard-entry transition (counter reset to 1 plus the line's brace balance),
and the count is whatever the rest contributes; nothing is removed for
this line. -/
theorem C10_guard_precedence (l : String) (ls : List String) (st : ScanState)
    (_hdev : st.inDev = false)
    (_hcons : isConsoleStart (pyStrip l) = true)
    (hentry : guardEntry l = true) :
    scanLines (l :: ls) st =
      ((l :: (scanLines ls (ScanState.mk (decide (0 < devStep st.depth l))
          (devStep st.depth l))).1),
       (scanLines ls (ScanState.mk (decide (0 < devStep st.depth l))
          (devStep st.depth l))).2) ∧
    devStep st.depth l = 1 + braceBal l := by
  constructor
  · rw [scanLines_cons, if_pos (by simp [hentry])]
  · simp [devStep, hentry]

/-- Witness for C10: a console call mentioning the guard marker is kept
and puts the scanner into guarded mode, so the next console line is kept
too. -/
theorem C10_guard_precedence_witness :
    scanLines ["console.log(__DEV__ ? \x27if\x27 : \x27x\x27)", "console.warn(2);"] initState
      = (["console.log(__DEV__ ? \x27if\x27 : \x27x\x27)", "console.warn(2);"], 0) := by
  have h := (C10_guard_precedence ("console.log(__DEV__ ? \x27if\x27 : \x27x\x27)")
    ["console.warn(2);"] initState rfl (by decide) (by decide)).1
  rw [h]
  decide

end StripConsole
